import Mathlib

/-!
Verification development for the LLM-based honeypot proxy.

The repository is a Go reverse proxy in front of an Ollama inference
server.  It has three core parts, embedded shallowly below:

* `admission` (admission.go): a policy checker that sends the request
  body to a judgment model, parses an ALLOW/DISALLOW verdict, retries
  transport failures with exponential backoff, fails open on errors,
  and synthesizes a backend-shaped denial response.
* `proxy` (proxy.go): the interception pipeline `handleRequest`, which
  buffers and restores the request body, runs the admission check on
  POST requests, short-circuits denied requests, and taps streaming
  responses through a `streamCollector` that reassembles chat streams.
* `config` (config.go): plain configuration data; only the admission
  timeout and retry counts matter here.

Byte strings are modelled as `List Char` (the Go code treats bodies as
byte slices holding UTF-8 text); JSON values are modelled by `JVal`
with an executable parser (`parseJsonChars`, standing in for
`encoding/json.Unmarshal`) and encoder (`encodeJson`, standing in for
`encoding/json.Marshal`).  Numbers are modelled as integers, which
covers every numeric value the program produces or inspects.
-/

namespace HoneyPot

/-- Does `p` occur as a leading segment of `s`?  Models Go
`strings.HasPrefix` / `bytes.HasPrefix` on the underlying bytes. -/
def listStartsWith (p s : List Char) : Bool :=
  match p, s with
  | [], _ => true
  | x :: xs, y :: ys => x == y && listStartsWith xs ys
  | _ :: _, [] => false

/-- Does `needle` occur contiguously anywhere inside `hay`?  Models Go
`strings.Contains` / `bytes.Contains`. -/
def listContains (needle : List Char) : List Char → Bool
  | [] => listStartsWith needle []
  | c :: rest => listStartsWith needle (c :: rest) || listContains needle rest

/-- Split on the newline byte, exactly like Go `bytes.Split(s, []byte("\n"))`:
`n` separators yield `n + 1` pieces, the empty input yields one empty piece. -/
def splitNl : List Char → List (List Char)
  | [] => [[]]
  | c :: rest =>
    if c == '\n' then [] :: splitNl rest
    else
      match splitNl rest with
      | [] => [[c]]
      | piece :: more => (c :: piece) :: more

/-- The whitespace predicate of Go `unicode.IsSpace` restricted to the
Latin-1 range (space, tab, newline, vertical tab, form feed, carriage
return, NEL, NBSP); the judgment strings in play are ASCII. -/
def goIsSpace (c : Char) : Bool :=
  c == ' ' || c == '\t' || c == '\n' || c == (Char.ofNat 11) ||
  c == (Char.ofNat 12) || c == '\r' || c == (Char.ofNat 133) || c == (Char.ofNat 160)

/-- Trim `goIsSpace` characters from both ends, modelling Go
`strings.TrimSpace`. -/
def trimSpaceChars (s : List Char) : List Char :=
  ((s.dropWhile goIsSpace).reverse.dropWhile goIsSpace).reverse

/-- JSON values as produced by `encoding/json`; numbers are restricted
to integers, covering every numeric literal this program reads or
writes. -/
inductive JVal where
  | null : JVal
  | bool : Bool → JVal
  | num : Int → JVal
  | str : String → JVal
  | arr : List JVal → JVal
  | obj : List (String × JVal) → JVal

/-- Last binding of key `k`, mirroring how `encoding/json` lets a later
duplicate key overwrite an earlier one when decoding an object. -/
def lookupLast (fs : List (String × JVal)) (k : String) : Option JVal :=
  match fs with
  | [] => none
  | (k2, v) :: rest =>
    match lookupLast rest k with
    | some r => some r
    | none => if k2 == k then some v else none

/-- Field of a JSON object; `none` when the value is not an object or
the key is absent. -/
def objField (v : JVal) (k : String) : Option JVal :=
  match v with
  | .obj fs => lookupLast fs k
  | _ => none

/-- Boolean field of a JSON object, `none` unless present with boolean type. -/
def objFieldBool (v : JVal) (k : String) : Option Bool :=
  match objField v k with
  | some (.bool b) => some b
  | _ => none

/-- String field of a JSON object, `none` unless present with string type. -/
def objFieldStr (v : JVal) (k : String) : Option String :=
  match objField v k with
  | some (.str s) => some s
  | _ => none

/-- Integer field of a JSON object, `none` unless present with numeric type. -/
def objFieldInt (v : JVal) (k : String) : Option Int :=
  match objField v k with
  | some (.num n) => some n
  | _ => none

/-- Two-level field access: `v.k1.k2`. -/
def objField2Str (v : JVal) (k1 k2 : String) : Option String :=
  match objField v k1 with
  | some m => objFieldStr m k2
  | none => none

/-- Skip JSON insignificant whitespace. -/
def skipWs : List Char → List Char
  | [] => []
  | c :: rest =>
    if c == ' ' || c == '\t' || c == '\n' || c == '\r' then skipWs rest
    else c :: rest

/-- Value of a hexadecimal digit (both cases), `none` for other
characters; written over the code point. -/
def hexVal (c : Char) : Option Nat :=
  let n := c.toNat
  if 48 ≤ n ∧ n ≤ 57 then some (n - 48)
  else if 97 ≤ n ∧ n ≤ 102 then some (n - 87)
  else if 65 ≤ n ∧ n ≤ 70 then some (n - 55)
  else none

/-- Parse the body of a JSON string after the opening quote, returning
the decoded characters and the remaining input. -/
def parseStringBody : Nat → List Char → Option (List Char × List Char)
  | 0, _ => none
  | _ + 1, [] => none
  | fuel + 1, c :: rest =>
    if c == '"' then some ([], rest)
    else if c == '\\' then
      match rest with
      | [] => none
      | e :: rest2 =>
        if e == 'u' then
          match rest2 with
          | h1 :: h2 :: h3 :: h4 :: rest3 =>
            match hexVal h1, hexVal h2, hexVal h3, hexVal h4 with
            | some a, some b, some c2, some d =>
              match parseStringBody fuel rest3 with
              | some (tail, rem) =>
                some (Char.ofNat (((a * 16 + b) * 16 + c2) * 16 + d) :: tail, rem)
              | none => none
            | _, _, _, _ => none
          | _ => none
        else
          let decoded : Option Char :=
            if e == '"' then some '"'
            else if e == '\\' then some '\\'
            else if e == '/' then some '/'
            else if e == 'n' then some '\n'
            else if e == 't' then some '\t'
            else if e == 'r' then some '\r'
            else if e == 'b' then some (Char.ofNat 8)
            else if e == 'f' then some (Char.ofNat 12)
            else none
          match decoded with
          | some d =>
            match parseStringBody fuel rest2 with
            | some (tail, rem) => some (d :: tail, rem)
            | none => none
          | none => none
    else
      match parseStringBody fuel rest with
      | some (tail, rem) => some (c :: tail, rem)
      | none => none

/-- Parse an unsigned run of decimal digits. -/
def parseDigits : List Char → Option (Nat × List Char)
  | [] => none
  | c :: rest =>
    if '0' ≤ c && c ≤ '9' then
      match parseDigits rest with
      | some (n, rem) =>
        -- more digits follow: fold this one in front
        some ((c.toNat - '0'.toNat) * 10 ^ (numDigitsConsumed rest rem) + n, rem)
      | none => some (c.toNat - '0'.toNat, rest)
    else none
where
  /-- Number of characters consumed between two suffix states. -/
  numDigitsConsumed (before after : List Char) : Nat :=
    before.length - after.length

mutual
/-- Recursive-descent JSON value parser (the shallow model of
`encoding/json.Unmarshal` used throughout); `fuel` strictly exceeds the
input length at every top-level call. -/
def parseValue : Nat → List Char → Option (JVal × List Char)
  | 0, _ => none
  | fuel + 1, input =>
    match skipWs input with
    | [] => none
    | c :: rest =>
      if c == 'n' then
        match rest with
        | 'u' :: 'l' :: 'l' :: rem => some (.null, rem)
        | _ => none
      else if c == 't' then
        match rest with
        | 'r' :: 'u' :: 'e' :: rem => some (.bool true, rem)
        | _ => none
      else if c == 'f' then
        match rest with
        | 'a' :: 'l' :: 's' :: 'e' :: rem => some (.bool false, rem)
        | _ => none
      else if c == '"' then
        match parseStringBody fuel rest with
        | some (chars, rem) => some (.str (String.mk chars), rem)
        | none => none
      else if c == '\x7b' then
        match skipWs rest with
        | '\x7d' :: rem => some (.obj [], rem)
        | other =>
          match parseMembers fuel other with
          | some (fs, rem) => some (.obj fs, rem)
          | none => none
      else if c == '[' then
        match skipWs rest with
        | ']' :: rem => some (.arr [], rem)
        | other =>
          match parseElements fuel other with
          | some (xs, rem) => some (.arr xs, rem)
          | none => none
      else if c == '-' then
        match parseDigits rest with
        | some (n, rem) => some (.num (-(n : Int)), rem)
        | none => none
      else
        match parseDigits (c :: rest) with
        | some (n, rem) => some (.num (n : Int), rem)
        | none => none

/-- Parse one or more `"key": value` members followed by `}`. -/
def parseMembers : Nat → List Char → Option (List (String × JVal) × List Char)
  | 0, _ => none
  | fuel + 1, input =>
    match skipWs input with
    | '"' :: rest =>
      match parseStringBody fuel rest with
      | some (key, afterKey) =>
        match skipWs afterKey with
        | ':' :: afterColon =>
          match parseValue fuel afterColon with
          | some (v, afterVal) =>
            match skipWs afterVal with
            | ',' :: afterComma =>
              match parseMembers fuel afterComma with
              | some (fs, rem) => some ((String.mk key, v) :: fs, rem)
              | none => none
            | '\x7d' :: rem => some ([(String.mk key, v)], rem)
            | _ => none
          | none => none
        | _ => none
      | none => none
    | _ => none

/-- Parse one or more array elements followed by `]`. -/
def parseElements : Nat → List Char → Option (List JVal × List Char)
  | 0, _ => none
  | fuel + 1, input =>
    match parseValue fuel input with
    | some (v, afterVal) =>
      match skipWs afterVal with
      | ',' :: afterComma =>
        match parseElements fuel afterComma with
        | some (xs, rem) => some (v :: xs, rem)
        | none => none
      | ']' :: rem => some ([v], rem)
      | _ => none
    | none => none
end

/-- Parse a complete JSON document: one value with nothing but
whitespace after it, as `encoding/json.Unmarshal` requires. -/
def parseJsonChars (s : List Char) : Option JVal :=
  match parseValue (s.length + 2) s with
  | some (v, rest) => if (skipWs rest).isEmpty then some v else none
  | none => none

/-- Convenience wrapper taking a `String` body. -/
def parseJson (s : String) : Option JVal :=
  parseJsonChars s.data

/-- Lower-case hexadecimal digit for `n < 16`. -/
def hexDigitChar (n : Nat) : Char :=
  if n < 10 then Char.ofNat ('0'.toNat + n) else Char.ofNat ('a'.toNat + (n - 10))

/-- Escape one character the way `encoding/json.Marshal` does by
default: quote, backslash, the HTML-significant characters and control
characters are escaped, everything else is emitted raw UTF-8. -/
def escapeChar (c : Char) : List Char :=
  if c == '"' then ['\\', '"']
  else if c == '\\' then ['\\', '\\']
  else if c == '\n' then ['\\', 'n']
  else if c == '\r' then ['\\', 'r']
  else if c == '\t' then ['\\', 't']
  else if c == '<' || c == '>' || c == '&' || c.toNat < 32 then
    ['\\', 'u', '0', '0', hexDigitChar (c.toNat / 16), hexDigitChar (c.toNat % 16)]
  else [c]

/-- Serialize a string literal with quotes and escapes. -/
def encodeStr (s : String) : String :=
  String.mk ('"' :: (s.data.flatMap escapeChar) ++ ['"'])

mutual
/-- Serialize a `JVal`, the shallow model of `encoding/json.Marshal`
(object fields keep the order of the field list, as Go structs do). -/
def encodeJson : JVal → String
  | .null => "null"
  | .bool true => "true"
  | .bool false => "false"
  | .num i => toString i
  | .str s => encodeStr s
  | .arr xs => "[" ++ encodeElems xs ++ "]"
  | .obj fs => "\x7b" ++ encodeFields fs ++ "\x7d"

/-- Serialize array elements, comma separated. -/
def encodeElems : List JVal → String
  | [] => ""
  | [x] => encodeJson x
  | x :: y :: xs => encodeJson x ++ "," ++ encodeElems (y :: xs)

/-- Serialize object fields, comma separated. -/
def encodeFields : List (String × JVal) → String
  | [] => ""
  | [(k, v)] => encodeStr k ++ ":" ++ encodeJson v
  | (k, v) :: f :: fs => encodeStr k ++ ":" ++ encodeJson v ++ "," ++ encodeFields (f :: fs)
end

/-!
## Admission module (admission.go)
-/

/-- Model of Go `strings.HasPrefix` on `String`. -/
def goHasPref (s pre : String) : Bool :=
  listStartsWith pre.data s.data

/-- Model of Go `strings.TrimPrefix`: drop the leading occurrence of
`pre` when present, otherwise return `s` unchanged. -/
def goTrimPref (s pre : String) : String :=
  if goHasPref s pre then String.mk (s.data.drop pre.data.length) else s

/-- Model of Go `strings.TrimSpace` on `String`. -/
def goTrimSpace (s : String) : String :=
  String.mk (trimSpaceChars s.data)

/-- The generic denial reason substituted for an empty DISALLOW reason
(admission.go line 137). -/
def defaultDenyReason : String := "内容不合规"

/-- Verdict analysis of `CheckContent` (admission.go lines 131-144):
the judgment text is mapped to `(allowed, reason)`. -/
def analyzeVerdict (result : String) : Bool × String :=
  if goHasPref result "ALLOW" then (true, "")
  else if goHasPref result "DISALLOW" then
    let reason := goTrimSpace (goTrimPref result "DISALLOW:")
    if reason == "" then (false, defaultDenyReason) else (false, reason)
  else (true, "")

/-- One environment-determined outcome of the HTTP exchange performed
by `doRequest`: either the transport fails, or an HTTP response with a
status code and a body arrives. -/
inductive AttemptOutcome where
  | transportError (msg : String)
  | httpResponse (status : Nat) (body : String)

/-- Decode the judgment response body into `Message.Content` the way
`json.Unmarshal` decodes it into the response struct of `doRequest`
(admission.go lines 215-228): `null` leaves zero values, an absent
field leaves its zero value, a type-mismatched field is an error. -/
def decodeOllamaContent : JVal → Option String
  | .null => some ""
  | .obj fs =>
    match lookupLast fs "message" with
    | none => some ""
    | some .null => some ""
    | some (.obj ms) =>
      match lookupLast ms "content" with
      | none => some ""
      | some .null => some ""
      | some (.str s) => some s
      | some _ => none
    | some _ => none
  | _ => none

/-- Model of `doRequest` (admission.go lines 172-231): serialize and send the
judgment request (abstracted into the given `AttemptOutcome`), then
fail on transport error, fail on a non-200 status, fail on an
undecodable body, and otherwise return `response.Message.Content`. -/
def doRequest (a : AttemptOutcome) : Except String String :=
  match a with
  | .transportError m => .error ("执行HTTP请求失败: " ++ m)
  | .httpResponse status body =>
    if status != 200 then
      .error ("API返回错误状态码: " ++ toString status ++ ", 响应: " ++ body)
    else
      match parseJson body with
      | none => .error ("解析响应失败, 响应内容: " ++ body)
      | some v =>
        match decodeOllamaContent v with
        | none => .error ("解析响应失败, 响应内容: " ++ body)
        | some content => .ok content

/-- Is this `Except` an error? -/
def exceptIsErr : Except String String → Bool
  | .error _ => true
  | .ok _ => false

/-- Backoff before the retry numbered `retry` (admission.go lines
112-115): `500ms * 2^retry`, capped at 5000 ms. -/
def backoffMs (retry : Nat) : Nat :=
  let t := 500 * 2 ^ retry
  if t > 5000 then 5000 else t

/-- Observable trace of the retry loop of `CheckContent` (admission.go
lines 103-119): final result, number of attempts performed, and the
sleeps (in ms) taken between attempts, in order. -/
structure RetryTrace where
  result : Except String String
  attemptsUsed : Nat
  sleepsMs : List Nat

/-- The retry loop of `CheckContent` from iteration `retry` on, with
`remaining` further iterations available (`remaining` equals
`maxRetries - retry`, so the Go guard `retry < maxRetries` holds iff
`remaining > 0`): try the attempt; on success stop; on failure, if
retries remain, sleep `backoffMs retry` and continue, else stop with
the error. -/
def retryAux (attempt : Nat → Except String String) : Nat → Nat → RetryTrace
  | remaining, retry =>
    match attempt retry with
    | .ok s => ⟨.ok s, 1, []⟩
    | .error e =>
      match remaining with
      | 0 => ⟨.error e, 1, []⟩
      | r + 1 =>
        let t := retryAux attempt r (retry + 1)
        ⟨t.result, t.attemptsUsed + 1, backoffMs retry :: t.sleepsMs⟩

/-- The whole retry loop (admission.go lines 103-119), started at
iteration 0 with `maxRetries` retries available. -/
def retryLoop (attempt : Nat → Except String String) (maxRetries : Nat) : RetryTrace :=
  retryAux attempt maxRetries 0

/-- The fixed system instruction sent with every judgment request. -/
def judgmentSystemInstruction : String :=
  "你是一个安全审核员。你的任务是检查content是否包含不允许的内容。你只需要输出 ALLOW和 DISALLOW"

/-- The judgment request body built by `CheckContent` (admission.go
lines 80-93); `json.Marshal` of Go maps orders keys alphabetically. -/
def judgmentRequestBody (modelName content : String) : JVal :=
  .obj [("messages", .arr
          [.obj [("content", .str judgmentSystemInstruction), ("role", .str "system")],
           .obj [("content", .str content), ("role", .str "user")]]),
        ("model", .str modelName),
        ("stream", .bool false)]

/-- Model of `CheckContent` (admission.go lines 64-145).  `enabled` and
`maxRetries` come from the admission configuration; `attempts` gives
the environment's response to the `k`-th HTTP attempt (the request
content only influences those responses through the environment).
Returns `(allowed, reason, evaluationError)`. -/
def CheckContent (enabled : Bool) (maxRetries : Nat)
    (attempts : Nat → AttemptOutcome) : Bool × String × Option String :=
  if !enabled then (true, "", none)
  else
    let t := retryLoop (fun k => doRequest (attempts k)) maxRetries
    match t.result with
    | .error e => (true, "", some e)
    | .ok result =>
      let v := analyzeVerdict result
      (v.1, v.2, none)

/-- Effective `http.Client` timeout in seconds chosen by
`NewOllamaChecker` (admission.go lines 43-48): a configured value below
30 is silently raised to 30. -/
def NewOllamaCheckerTimeout (cfgTimeoutSecs : Nat) : Nat :=
  if cfgTimeoutSecs < 30 then 30 else cfgTimeoutSecs

/-- The context deadline wrapped around every admission check by
`enforceAdmissionCheck` (proxy.go line 314): 10 seconds. -/
def enforceAdmissionCtxTimeout : Nat := 10

/-- The bound actually enforced on a judgment attempt made through the
pipeline: the attempt is cancelled by whichever fires first of the
HTTP client timeout and the 10-second request context deadline. -/
def effectiveAttemptTimeout (cfgTimeoutSecs : Nat) : Nat :=
  min (NewOllamaCheckerTimeout cfgTimeoutSecs) enforceAdmissionCtxTimeout

/-- The human-readable denial message (admission.go line 236). -/
def deniedMessageContent (reason : String) : String :=
  "很抱歉，我无法处理您的请求。原因：" ++ reason

/-- The response object built by `CreateDeniedResponse` (admission.go
lines 239-273), with the struct's field order; `createdAt` stands for
`time.Now().UTC().Format(time.RFC3339Nano)`. -/
def deniedResponseObj (reason createdAt : String) : JVal :=
  .obj [("model", .str "phi3:3.8b"),
        ("created_at", .str createdAt),
        ("message", .obj [("role", .str "assistant"),
                          ("content", .str (deniedMessageContent reason))]),
        ("done_reason", .str "stop"),
        ("done", .bool true),
        ("total_duration", .num 8000000000),
        ("load_duration", .num 15000000),
        ("prompt_eval_count", .num 15),
        ("prompt_eval_duration", .num 9000000),
        ("eval_count", .num 400),
        ("eval_duration", .num 7900000000)]

/-- Model of `CreateDeniedResponse` (admission.go lines 234-277): marshal the
fixed denial object.  Like the Go function, it receives the request
path but never uses it. -/
def CreateDeniedResponse (reason requestPath createdAt : String) : String :=
  encodeJson (deniedResponseObj reason createdAt)

/-!
## Proxy module (proxy.go)
-/

/-- The literal byte pattern `"done":true` scanned for by
`streamCollector.Write` (proxy.go line 112). -/
def doneMarker1 : List Char := ("\"done\":true").data

/-- The literal byte pattern `"done": true`, the second variant scanned
for by `streamCollector.Write` (proxy.go line 112). -/
def doneMarker2 : List Char := ("\"done\": true").data

/-- The completion test of `streamCollector.Write` (proxy.go line 112):
the written fragment contains one of the two literal byte patterns. -/
def chunkSignalsDone (p : List Char) : Bool :=
  listContains doneMarker1 p || listContains doneMarker2 p

/-- What the claim under test calls the parsed completion signal: the
chunk is valid JSON whose top-level `done` field is boolean `true`. -/
def parsedDoneTrue (chunk : List Char) : Bool :=
  match parseJsonChars chunk with
  | some v => objFieldBool v "done" == some true
  | none => false

/-- Model of `strings.Contains(sc.path, "/api/chat")` (proxy.go line 123). -/
def pathIsChat (path : String) : Bool :=
  listContains ("/api/chat").data path.data

/-- The `message.content` contributed by one accumulated line
(proxy.go lines 152-164): empty lines are skipped, chunks that fail to
decode as a JSON object are skipped, and only an object-typed `message`
with a string-typed `content` contributes. -/
def chunkContent (chunk : List Char) : String :=
  if chunk.isEmpty then ""
  else
    match parseJsonChars chunk with
    | some v =>
      match objField v "message" with
      | some (.obj ms) =>
        match lookupLast ms "content" with
        | some (.str s) => s
        | _ => ""
      | _ => ""
    | none => ""

/-- Concatenation of a list of strings, modelling the
`strings.Builder` loop of `getAccumulatedContent`. -/
def strConcat : List String → String
  | [] => ""
  | s :: ss => s ++ strConcat ss

/-- Model of `streamCollector.getAccumulatedContent` (proxy.go lines 148-168):
split the accumulated bytes on newlines and concatenate the
`message.content` of every parsed chunk, in order. -/
def getAccumulatedContent (accumulated : List Char) : String :=
  strConcat ((splitNl accumulated).map chunkContent)

/-- The state of a `streamCollector` (proxy.go lines 90-96);
the logger handle is left abstract since emissions are returned. -/
structure StreamCollector where
  path : String
  modelName : String
  accumulated : List Char

/-- The reconstructed chat record marshalled at proxy.go lines 124-136. -/
structure ChatRecord where
  content : String
  modelName : String
  done : Bool
deriving DecidableEq

/-- One record handed to `logger.LogResponse` by the collector: either
a reconstructed chat record or the raw accumulated bytes. -/
inductive Emitted where
  | chat (r : ChatRecord)
  | raw (bytes : List Char)
deriving DecidableEq

/-- Model of `streamCollector.Write` (proxy.go lines 107-145): append the
fragment to the accumulation; if the fragment contains a literal done
marker, emit one record — the reassembled chat record on a chat path,
the raw accumulation otherwise. -/
def scWrite (sc : StreamCollector) (p : List Char) : StreamCollector × List Emitted :=
  let sc2 : StreamCollector := { sc with accumulated := sc.accumulated ++ p }
  if chunkSignalsDone p then
    if pathIsChat sc.path then
      (sc2, [.chat ⟨getAccumulatedContent sc2.accumulated, sc.modelName, true⟩])
    else
      (sc2, [.raw sc2.accumulated])
  else (sc2, [])

/-- Feed a sequence of fragments through `streamCollector.Write`,
collecting every emission in order. -/
def scRun (sc : StreamCollector) : List (List Char) → StreamCollector × List Emitted
  | [] => (sc, [])
  | p :: ps =>
    let (sc2, out) := scWrite sc p
    let (sc3, outs) := scRun sc2 ps
    (sc3, out ++ outs)

/-- A fresh collector as built by `newStreamCollector`
(proxy.go lines 98-105). -/
def newStreamCollector (path modelName : String) : StreamCollector :=
  ⟨path, modelName, []⟩

/-!
## The interception pipeline (`handleRequest`, proxy.go lines 171-284)
-/

/-- The parts of an inbound HTTP request that `handleRequest` inspects. -/
structure ReqModel where
  method : String
  path : String
  contentType : String
  body : String
deriving DecidableEq

/-- What `handleRequest` does with a request: short-circuit with a
synthesized denial written directly to the client, or hand the request
to the reverse proxy (`op.proxy.ServeHTTP`), possibly with a stream
tap. -/
inductive Outcome where
  | denied (status : Nat) (contentType : String) (body : String)
  | forward (streamed : Bool) (bodyAtForward : String)
deriving DecidableEq

/-- Stream detection (proxy.go lines 228-242): POST with JSON content
type whose body is a JSON object with a boolean field `stream` equal to
`true`. -/
def isStreamRequest (req : ReqModel) : Bool :=
  req.method == "POST" && req.contentType == "application/json" &&
    (match parseJson req.body with
     | some v => objFieldBool v "stream" == some true
     | none => false)

/-- Model of `handleRequest` (proxy.go lines 171-284).  `admPresent` models
`op.admChecker != nil`; `enabled`, `maxRetries` and `attempts` feed the
admission check exactly as in `CheckContent`; `createdAt` stands for
the wall-clock timestamp used by `CreateDeniedResponse`.  A POST
request with the checker present is admission-checked; an evaluation
error is logged and the request forwarded (fail-open); a denial writes
the synthetic response with HTTP 200 and returns; everything else is
forwarded, streamed requests through the collector tap. -/
def handleRequest (admPresent enabled : Bool) (maxRetries : Nat)
    (attempts : Nat → AttemptOutcome) (req : ReqModel) (createdAt : String) : Outcome :=
  if admPresent && (req.method == "POST") then
    let res := CheckContent enabled maxRetries attempts
    if res.2.2.isSome then
      .forward (isStreamRequest req) req.body
    else if !res.1 then
      .denied 200 "application/json" (CreateDeniedResponse res.2.1 req.path createdAt)
    else
      .forward (isStreamRequest req) req.body
  else
    .forward (isStreamRequest req) req.body

/-!
## Request-body buffering (proxy.go lines 188-210, 231-233, 248-250,
305-311)

The Go code reads `r.Body` to exhaustion several times and after every
read replaces it with `io.NopCloser(bytes.NewBuffer(bodyBytes))`.  The
body is modelled as the string a further read would return.
-/

/-- The readable request-body stream. -/
structure BodyState where
  remaining : String
deriving DecidableEq

/-- Model of `io.ReadAll(r.Body)`: return everything and leave the stream empty. -/
def readAllBody (b : BodyState) : String × BodyState :=
  (b.remaining, ⟨""⟩)

/-- Model of `r.Body = io.NopCloser(bytes.NewBuffer(s))`. -/
def nopCloserBuffer (s : String) : BodyState :=
  ⟨s⟩

/-- The admission phase of `handleRequest` (lines 188-210) together
with the body handling of `enforceAdmissionCheck` (lines 305-311):
read and reset, read and reset inside the check, reset once more. -/
def admissionPhaseBody (b0 : BodyState) : BodyState :=
  let (bodyBytes, _) := readAllBody b0       -- line 189
  let b1 := nopCloserBuffer bodyBytes        -- line 197
  let (bb, _) := readAllBody b1              -- line 306
  let _b2 := nopCloserBuffer bb              -- line 311
  nopCloserBuffer bodyBytes                  -- line 210

/-- The stream-detection read (lines 231-233). -/
def streamDetectBody (b : BodyState) : BodyState :=
  let (bb, _) := readAllBody b
  nopCloserBuffer bb

/-- The model-name extraction read (lines 248-250). -/
def modelExtractBody (b : BodyState) : BodyState :=
  let (bb, _) := readAllBody b
  nopCloserBuffer bb

/-- The body bytes available when the request is handed to the reverse
proxy, after whichever inspection phases ran: the admission phase runs
for gated POSTs, the stream-detection read for JSON POSTs, and the
model-name read for streaming chat/generate requests. -/
def bodyAtForward (orig : String) (admissionGated jsonPost modelRead : Bool) : String :=
  let b0 := nopCloserBuffer orig
  let b1 := if admissionGated then admissionPhaseBody b0 else b0
  let b2 := if jsonPost then streamDetectBody b1 else b1
  let b3 := if modelRead then modelExtractBody b2 else b2
  b3.remaining

/-!
## Supporting lemmas
-/

theorem listStartsWith_iff (p : List Char) : ∀ s : List Char,
    listStartsWith p s = true ↔ ∃ r, s = p ++ r := by
  induction p with
  | nil =>
    intro s
    simp [listStartsWith]
  | cons a as ih =>
    intro s
    cases s with
    | nil =>
      simp [listStartsWith]
    | cons b bs =>
      simp only [listStartsWith, Bool.and_eq_true, beq_iff_eq, ih bs, List.cons_append,
        List.cons.injEq]
      constructor
      · rintro ⟨rfl, r, rfl⟩
        exact ⟨r, rfl, rfl⟩
      · rintro ⟨r, rfl, rfl⟩
        exact ⟨rfl, r, rfl⟩

theorem listStartsWith_append_left (p : List Char) : ∀ (l r : List Char),
    p.length ≤ l.length → listStartsWith p (l ++ r) = listStartsWith p l := by
  induction p with
  | nil =>
    intro l r _
    simp [listStartsWith]
  | cons a as ih =>
    intro l r hlen
    cases l with
    | nil =>
      simp at hlen
    | cons b bs =>
      simp only [List.cons_append, listStartsWith]
      have h2 := ih bs r (by simpa using hlen)
      rw [show bs ++ r = bs.append r from rfl] at h2
      rw [h2]

/-!
## Claim C2 — verdict parsing
-/

/-- Claim C2: for every judgment-service response string, a string
starting with `ALLOW` yields allowed; a string starting with
`DISALLOW:` yields denied with the reason being the text after
`DISALLOW:` trimmed of surrounding whitespace, the generic default
message substituted when that trimmed reason is empty; any string
starting with `DISALLOW` is denied; and any string matching neither
token is allowed (fail open). -/
theorem C2_verdict_parsing (s : String) :
    (goHasPref s "ALLOW" = true → analyzeVerdict s = (true, "")) ∧
    (goHasPref s "DISALLOW:" = true →
      analyzeVerdict s =
        (false,
          if goTrimSpace (String.mk (s.data.drop 9)) == "" then defaultDenyReason
          else goTrimSpace (String.mk (s.data.drop 9)))) ∧
    (goHasPref s "DISALLOW" = true → (analyzeVerdict s).1 = false) ∧
    (goHasPref s "ALLOW" = false → goHasPref s "DISALLOW" = false →
      analyzeVerdict s = (true, "")) := by
  refine ⟨?_, ?_, ?_, ?_⟩
  · intro h
    simp [analyzeVerdict, h]
  · intro h
    obtain ⟨r, hr⟩ := (listStartsWith_iff ("DISALLOW:".data) s.data).1 h
    have hA : goHasPref s "ALLOW" = false := by
      unfold goHasPref
      rw [hr, listStartsWith_append_left _ _ _ (by decide)]
      decide
    have hD : goHasPref s "DISALLOW" = true := by
      unfold goHasPref
      rw [hr, listStartsWith_append_left _ _ _ (by decide)]
      decide
    have htrim : goTrimPref s "DISALLOW:" = String.mk (s.data.drop 9) := by
      simp [goTrimPref, h]
    rw [show analyzeVerdict s =
        (if goHasPref s "ALLOW" then (true, "")
         else if goHasPref s "DISALLOW" then
           let reason := goTrimSpace (goTrimPref s "DISALLOW:")
           if reason == "" then (false, defaultDenyReason) else (false, reason)
         else (true, "")) from rfl]
    rw [hA, hD, htrim]
    by_cases hc : goTrimSpace (String.mk (s.data.drop 9)) == ""
    · simp [hc]
    · simp [hc]
  · intro h
    obtain ⟨r, hr⟩ := (listStartsWith_iff ("DISALLOW".data) s.data).1 h
    have hA : goHasPref s "ALLOW" = false := by
      unfold goHasPref
      rw [hr, listStartsWith_append_left _ _ _ (by decide)]
      decide
    by_cases hc : goTrimSpace (goTrimPref s "DISALLOW:") == "" <;>
      simp [analyzeVerdict, hA, h, hc]
  · intro h1 h2
    simp [analyzeVerdict, h1, h2]

/-- Witness for C2 at concrete verdict strings. -/
theorem C2_verdict_parsing_witness :
    analyzeVerdict "DISALLOW:  bad input  " = (false, "bad input") ∧
    analyzeVerdict "ALLOW ok" = (true, "") ∧
    analyzeVerdict "DISALLOW:" = (false, defaultDenyReason) ∧
    analyzeVerdict "unexpected" = (true, "") := by
  have h1 := (C2_verdict_parsing "DISALLOW:  bad input  ").2.1 (by decide)
  have h2 := (C2_verdict_parsing "ALLOW ok").1 (by decide)
  have h3 := (C2_verdict_parsing "DISALLOW:").2.1 (by decide)
  have h4 := (C2_verdict_parsing "unexpected").2.2.2 (by decide) (by decide)
  refine ⟨?_, h2, ?_, h4⟩
  · rw [h1]
    decide
  · rw [h3]
    decide

theorem backoffMs_eq_min (k : Nat) : backoffMs k = min (500 * 2 ^ k) 5000 := by
  unfold backoffMs
  rcases le_or_lt (500 * 2 ^ k) 5000 with h | h
  · rw [if_neg (by omega), Nat.min_eq_left h]
  · rw [if_pos h, Nat.min_eq_right (by omega)]

theorem retryAux_result_allFail (attempt : Nat → Except String String) :
    ∀ (remaining retry : Nat),
      (∀ k, retry ≤ k → k ≤ retry + remaining → exceptIsErr (attempt k) = true) →
      (retryAux attempt remaining retry).result = attempt (retry + remaining) := by
  intro remaining
  induction remaining with
  | zero =>
    intro retry hf
    have herr := hf retry le_rfl (by omega)
    unfold retryAux
    cases hA : attempt retry with
    | ok s => rw [hA] at herr; simp [exceptIsErr] at herr
    | error e => simp [hA]
  | succ rem ih =>
    intro retry hf
    have herr := hf retry le_rfl (by omega)
    unfold retryAux
    cases hA : attempt retry with
    | ok s => rw [hA] at herr; simp [exceptIsErr] at herr
    | error e =>
      simp only [hA]
      have hrec := ih (retry + 1) (fun k h1 h2 => hf k (by omega) (by omega))
      rw [hrec, show retry + 1 + rem = retry + (rem + 1) by omega]

theorem retryAux_spec_success (attempt : Nat → Except String String) (s : String) :
    ∀ (N : Nat), ∀ (remaining retry : Nat), N ≤ remaining →
      (∀ k, k < N → exceptIsErr (attempt (retry + k)) = true) →
      attempt (retry + N) = .ok s →
      retryAux attempt remaining retry =
        ⟨.ok s, N + 1, (List.range N).map (fun k => backoffMs (retry + k))⟩ := by
  intro N
  induction N with
  | zero =>
    intro remaining retry _ _ hok
    rw [Nat.add_zero] at hok
    unfold retryAux
    rw [hok]
    simp
  | succ m ih =>
    intro remaining retry hN hf hok
    have herr := hf 0 (by omega)
    rw [Nat.add_zero] at herr
    cases remaining with
    | zero => omega
    | succ rem =>
      unfold retryAux
      cases hA : attempt retry with
      | ok s2 => rw [hA] at herr; simp [exceptIsErr] at herr
      | error e =>
        simp only [hA]
        have hrec := ih rem (retry + 1) (by omega)
          (fun k hk => by
            have := hf (k + 1) (by omega)
            rwa [show retry + (k + 1) = retry + 1 + k by omega] at this)
          (by rwa [show retry + 1 + m = retry + (m + 1) by omega])
        rw [hrec]
        simp only [RetryTrace.mk.injEq, true_and]
        rw [List.range_succ_eq_map, List.map_cons, List.map_map]
        congr 1
        apply List.map_congr_left
        intro a _
        simp only [Function.comp_apply]
        congr 1
        omega

theorem retryAux_attemptsUsed_pos (attempt : Nat → Except String String)
    (remaining retry : Nat) : 1 ≤ (retryAux attempt remaining retry).attemptsUsed := by
  unfold retryAux
  cases attempt retry <;> cases remaining <;> simp

/-!
## Claim C5 — fail-open on exhausted retries
-/

/-- Claim C5: when admission is enabled and every attempt (the first
try plus all configured retries) fails with a transport or HTTP error,
`CheckContent` returns `allowed = true` with an empty reason and a
non-nil evaluation error — never a denial. -/
theorem C5_fail_open_on_exhausted_retries (maxRetries : Nat) (attempts : Nat → AttemptOutcome)
    (hf : ∀ k, k ≤ maxRetries → exceptIsErr (doRequest (attempts k)) = true) :
    (CheckContent true maxRetries attempts).1 = true ∧
    (CheckContent true maxRetries attempts).2.1 = "" ∧
    (CheckContent true maxRetries attempts).2.2.isSome = true := by
  have hres : (retryLoop (fun k => doRequest (attempts k)) maxRetries).result
      = doRequest (attempts maxRetries) := by
    have h := retryAux_result_allFail (fun k => doRequest (attempts k)) maxRetries 0
      (fun k _ h2 => hf k (by omega))
    simpa using h
  have herr := hf maxRetries le_rfl
  cases hA : doRequest (attempts maxRetries) with
  | ok s => rw [hA] at herr; simp [exceptIsErr] at herr
  | error e =>
    have hr : (retryLoop (fun k => doRequest (attempts k)) maxRetries).result
        = .error e := hres.trans hA
    have hcc : CheckContent true maxRetries attempts = (true, "", some e) := by
      unfold CheckContent
      simp [hr]
    simp [hcc]

/-- Environment for the C5 witness: the transport fails on every attempt. -/
def c5Attempts : Nat → AttemptOutcome := fun _ => .transportError "connection refused"

/-- Witness for C5: with two retries configured and every attempt
failing at transport level, the check fails open with an error. -/
theorem C5_fail_open_witness :
    (CheckContent true 2 c5Attempts).1 = true ∧
    (CheckContent true 2 c5Attempts).2.1 = "" ∧
    (CheckContent true 2 c5Attempts).2.2.isSome = true :=
  C5_fail_open_on_exhausted_retries 2 c5Attempts (fun _ _ => rfl)

/-!
## Claim C7 — retry count and exponential backoff
-/

/-- Claim C7: when the judgment call fails on attempts `0..N-1` and
succeeds on attempt `N` with `N ≤ maxRetries`, exactly `N` retries
occur (`N + 1` attempts in total), the result reflects the success,
and the backoff slept before the `k`-th retry equals
`min(500ms * 2^k, 5s)`, with no sleep before the first attempt and
none after the last. -/
theorem C7_retry_backoff (maxRetries N : Nat) (attempts : Nat → AttemptOutcome) (s : String)
    (hN : N ≤ maxRetries)
    (hf : ∀ k, k < N → exceptIsErr (doRequest (attempts k)) = true)
    (hok : doRequest (attempts N) = .ok s) :
    retryLoop (fun k => doRequest (attempts k)) maxRetries =
      ⟨.ok s, N + 1, (List.range N).map (fun k => min (500 * 2 ^ k) 5000)⟩ ∧
    CheckContent true maxRetries attempts =
      ((analyzeVerdict s).1, (analyzeVerdict s).2, none) := by
  have hspec := retryAux_spec_success (fun k => doRequest (attempts k)) s N maxRetries 0 hN
    (fun k hk => by simpa using hf k hk) (by simpa using hok)
  have hmap : (List.range N).map (fun k => backoffMs (0 + k))
      = (List.range N).map (fun k => min (500 * 2 ^ k) 5000) := by
    apply List.map_congr_left
    intro a _
    rw [Nat.zero_add, backoffMs_eq_min]
  have hloop : retryLoop (fun k => doRequest (attempts k)) maxRetries =
      ⟨.ok s, N + 1, (List.range N).map (fun k => min (500 * 2 ^ k) 5000)⟩ := by
    unfold retryLoop
    rw [hspec, hmap]
  refine ⟨hloop, ?_⟩
  have hr : (retryLoop (fun k => doRequest (attempts k)) maxRetries).result = .ok s := by
    rw [hloop]
  unfold CheckContent
  simp [hr]

/-- The body a healthy judgment service answers with. -/
def chatAllowBody : String :=
  "\x7b\"message\":\x7b\"content\":\"ALLOW\"\x7d\x7d"

/-- Environment for the C7 witness: transport failure on attempts 0
and 1, success on attempt 2. -/
def c7Attempts : Nat → AttemptOutcome := fun k =>
  if k < 2 then .transportError "timeout" else .httpResponse 200 chatAllowBody

/-- Witness for C7: two failures then a success under the default
configuration (two retries) give three attempts, sleeps of 500 ms and
1000 ms, and an allowed result. -/
theorem C7_retry_backoff_witness :
    (retryLoop (fun k => doRequest (c7Attempts k)) 2).sleepsMs = [500, 1000] ∧
    (retryLoop (fun k => doRequest (c7Attempts k)) 2).attemptsUsed = 3 ∧
    CheckContent true 2 c7Attempts = (true, "", none) := by
  have h := C7_retry_backoff 2 2 c7Attempts "ALLOW" (le_refl 2)
    (fun k hk => by interval_cases k <;> rfl) (by rfl)
  refine ⟨?_, ?_, ?_⟩
  · rw [h.1]
    decide
  · rw [h.1]
  · rw [h.2]
    decide

/-!
## Claim C6 — which anomalies are retried
-/

/-- Environment for the C6 counterexample: attempt 0 returns HTTP 200
with an unparseable body, the others a healthy ALLOW. -/
def c6Attempts : Nat → AttemptOutcome := fun k =>
  if k == 0 then .httpResponse 200 "not json" else .httpResponse 200 chatAllowBody

/-- Counterexample to claim C6: an HTTP 200 judgment response whose
body is unparseable JSON makes `doRequest` return an error, and under
the default configuration (two retries) the loop retries it — two
attempts run and a 500 ms backoff is slept — contradicting the claim
that parse anomalies are never retried. -/
theorem C6_parse_anomaly_counterexample :
    (parseJson "not json").isNone = true ∧
    c6Attempts 0 = .httpResponse 200 "not json" ∧
    exceptIsErr (doRequest (c6Attempts 0)) = true ∧
    (retryLoop (fun k => doRequest (c6Attempts k)) 2).attemptsUsed = 2 ∧
    (retryLoop (fun k => doRequest (c6Attempts k)) 2).sleepsMs = [500] ∧
    CheckContent true 2 c6Attempts = (true, "", none) :=
  ⟨rfl, rfl, rfl, rfl, rfl, rfl⟩

/-- Claim C6 as amended: an unexpected verdict token (the response
decodes but matches neither `ALLOW` nor `DISALLOW`) is fail-open and
not retried; an unparseable JSON body, however, surfaces as a
`doRequest` error and is retried exactly like a transport fault
whenever retries remain. -/
theorem C6_anomaly_retry_behaviour :
    (∀ (maxRetries : Nat) (attempts : Nat → AttemptOutcome) (s : String),
      doRequest (attempts 0) = .ok s →
      goHasPref s "ALLOW" = false → goHasPref s "DISALLOW" = false →
      CheckContent true maxRetries attempts = (true, "", none) ∧
      (retryLoop (fun k => doRequest (attempts k)) maxRetries).attemptsUsed = 1) ∧
    (∀ (maxRetries : Nat) (attempts : Nat → AttemptOutcome) (body : String),
      attempts 0 = .httpResponse 200 body → parseJson body = none →
      0 < maxRetries →
      2 ≤ (retryLoop (fun k => doRequest (attempts k)) maxRetries).attemptsUsed) := by
  constructor
  · intro maxRetries attempts s hok h1 h2
    have hloop : retryLoop (fun k => doRequest (attempts k)) maxRetries
        = ⟨.ok s, 1, []⟩ := by
      unfold retryLoop retryAux
      rw [hok]
    constructor
    · have hr : (retryLoop (fun k => doRequest (attempts k)) maxRetries).result
          = .ok s := by rw [hloop]
      unfold CheckContent
      simp [hr, analyzeVerdict, h1, h2]
    · rw [hloop]
  · intro maxRetries attempts body h0 hparse hpos
    have herr : doRequest (attempts 0) =
        .error ("解析响应失败, 响应内容: " ++ body) := by
      rw [h0]
      unfold doRequest
      simp [hparse]
    cases maxRetries with
    | zero => omega
    | succ r =>
      unfold retryLoop retryAux
      rw [herr]
      have := retryAux_attemptsUsed_pos (fun k => doRequest (attempts k)) r 1
      simpa using this

/-- The body of a decodable judgment response with an unexpected
verdict token. -/
def weirdVerdictBody : String :=
  "\x7b\"message\":\x7b\"content\":\"maybe\"\x7d\x7d"

/-- Environment for the C6 amended witness, first part: every attempt
returns a decodable body whose verdict is neither token. -/
def c6aAttempts : Nat → AttemptOutcome := fun _ => .httpResponse 200 weirdVerdictBody

/-- Witness for the amended C6: a weird verdict token fails open after
a single attempt, while the unparseable body of `c6Attempts` is
retried. -/
theorem C6_anomaly_retry_behaviour_witness :
    CheckContent true 2 c6aAttempts = (true, "", none) ∧
    (retryLoop (fun k => doRequest (c6aAttempts k)) 2).attemptsUsed = 1 ∧
    2 ≤ (retryLoop (fun k => doRequest (c6Attempts k)) 2).attemptsUsed := by
  have ha := C6_anomaly_retry_behaviour.1 2 c6aAttempts "maybe" (by rfl) (by decide) (by decide)
  have hb := C6_anomaly_retry_behaviour.2 2 c6Attempts "not json" (by rfl) (by rfl) (by decide)
  exact ⟨ha.1, ha.2, hb⟩

/-!
## Claim C8 — effective per-attempt timeout
-/

/-- Counterexample to claim C8: with the default configured timeout of
5 seconds, `NewOllamaChecker` floors the HTTP client timeout to 30
seconds, but `enforceAdmissionCheck` wraps the whole check in a
10-second context, so the bound actually enforced on a judgment
attempt made through the pipeline is 10 seconds, not 30. -/
theorem C8_timeout_counterexample :
    NewOllamaCheckerTimeout 5 = 30 ∧
    effectiveAttemptTimeout 5 = 10 ∧
    effectiveAttemptTimeout 5 ≠ 30 := by
  decide

/-- Claim C8 as amended: for every configured per-call timeout below
30 seconds, the HTTP client timeout is silently floored to 30 seconds,
but the 10-second request context of `enforceAdmissionCheck` is the
binding constraint, so the effective timeout enforced on a
pipeline-issued judgment attempt is 10 seconds. -/
theorem C8_timeout_floor_and_context (t : Nat) (ht : t < 30) :
    NewOllamaCheckerTimeout t = 30 ∧ effectiveAttemptTimeout t = 10 := by
  constructor
  · unfold NewOllamaCheckerTimeout
    rw [if_pos ht]
  · unfold effectiveAttemptTimeout NewOllamaCheckerTimeout enforceAdmissionCtxTimeout
    rw [if_pos ht]
    decide

/-- Witness for the amended C8 at the repository's default
configuration value of 5 seconds. -/
theorem C8_timeout_floor_witness :
    NewOllamaCheckerTimeout 5 = 30 ∧ effectiveAttemptTimeout 5 = 10 :=
  C8_timeout_floor_and_context 5 (by decide)

/-!
## Claim C10 — the denial response is constant apart from the reason
-/

/-- Claim C10: `CreateDeniedResponse` is independent of its
`requestPath` argument (and takes no client-model input at all), and
the denial object carries the fixed model string `phi3:3.8b` and fixed
numeric timing fields. -/
theorem C10_denied_response_constants (reason p1 p2 createdAt : String) :
    CreateDeniedResponse reason p1 createdAt = CreateDeniedResponse reason p2 createdAt ∧
    objFieldStr (deniedResponseObj reason createdAt) "model" = some "phi3:3.8b" ∧
    objFieldInt (deniedResponseObj reason createdAt) "total_duration" = some 8000000000 ∧
    objFieldInt (deniedResponseObj reason createdAt) "load_duration" = some 15000000 ∧
    objFieldInt (deniedResponseObj reason createdAt) "prompt_eval_count" = some 15 ∧
    objFieldInt (deniedResponseObj reason createdAt) "prompt_eval_duration" = some 9000000 ∧
    objFieldInt (deniedResponseObj reason createdAt) "eval_count" = some 400 ∧
    objFieldInt (deniedResponseObj reason createdAt) "eval_duration" = some 7900000000 :=
  ⟨rfl, rfl, rfl, rfl, rfl, rfl, rfl, rfl⟩

/-!
## Claim C9 — non-destructive request-body inspection
-/

/-- Claim C9: whatever combination of inspection phases runs on a
request (the admission read-and-reset cycle, the stream-detection
read, the model-name read), the body bytes available when the request
is handed to the reverse proxy are exactly the original bytes. -/
theorem C9_body_restored_for_forwarding (orig : String)
    (admissionGated jsonPost modelRead : Bool) :
    bodyAtForward orig admissionGated jsonPost modelRead = orig := by
  cases admissionGated <;> cases jsonPost <;> cases modelRead <;> rfl

/-!
## Claim C1 — denied requests are never forwarded
-/

/-- Claim C1: for every POST request (with the checker present) whose
admission check returns a denial, `handleRequest` never forwards the
request: the outcome is exactly the synthetic denial written to the
client with HTTP status 200 and content type `application/json`, whose
body is the marshalled fixed backend-shaped object carrying
`message.role = "assistant"`, `done_reason = "stop"` and
`done = true`. -/
theorem C1_denied_never_forwarded (enabled : Bool) (maxRetries : Nat)
    (attempts : Nat → AttemptOutcome) (req : ReqModel) (createdAt reason : String)
    (hm : req.method = "POST")
    (hc : CheckContent enabled maxRetries attempts = (false, reason, none)) :
    handleRequest true enabled maxRetries attempts req createdAt =
      .denied 200 "application/json" (CreateDeniedResponse reason req.path createdAt) ∧
    CreateDeniedResponse reason req.path createdAt
      = encodeJson (deniedResponseObj reason createdAt) ∧
    objField2Str (deniedResponseObj reason createdAt) "message" "role" = some "assistant" ∧
    objFieldStr (deniedResponseObj reason createdAt) "done_reason" = some "stop" ∧
    objFieldBool (deniedResponseObj reason createdAt) "done" = some true := by
  refine ⟨?_, rfl, rfl, rfl, rfl⟩
  unfold handleRequest
  rw [hm]
  simp [hc]

/-- Environment for the C1 witness: the judgment service answers
`DISALLOW: weapons` on the only attempt. -/
def c1Attempts : Nat → AttemptOutcome := fun _ =>
  .httpResponse 200 "\x7b\"message\":\x7b\"content\":\"DISALLOW: weapons\"\x7d\x7d"

/-- A concrete denied request for the C1 witness. -/
def c1Req : ReqModel :=
  ⟨"POST", "/api/chat", "application/json",
   "\x7b\"model\":\"llama3\",\"messages\":[],\"stream\":false\x7d"⟩

/-- Witness for C1 at a concrete denied request. -/
theorem C1_denied_never_forwarded_witness :
    handleRequest true true 0 c1Attempts c1Req "2025-01-01T00:00:00Z" =
      .denied 200 "application/json"
        (CreateDeniedResponse "weapons" "/api/chat" "2025-01-01T00:00:00Z") ∧
    objField2Str (deniedResponseObj "weapons" "2025-01-01T00:00:00Z") "message" "role"
      = some "assistant" := by
  have h := C1_denied_never_forwarded true 0 c1Attempts c1Req "2025-01-01T00:00:00Z"
    "weapons" (by rfl) (by decide)
  exact ⟨h.1, h.2.2.1⟩

/-!
## Claim C4 — terminal-chunk detection
-/

/-- Counterexample to claim C4: the chunk `{"done" : true}` (a space
before the colon) parses to JSON with `done = true`, yet
`streamCollector.Write` does not treat the stream as complete — it
emits nothing — because detection is literal byte matching of
`"done":true` / `"done": true`, not parsed-value inspection. -/
theorem C4_detection_counterexample :
    parsedDoneTrue ("\x7b\"done\" : true\x7d").data = true ∧
    chunkSignalsDone ("\x7b\"done\" : true\x7d").data = false ∧
    (scWrite (newStreamCollector "/api/chat" "m") ("\x7b\"done\" : true\x7d").data).2
      = [] := by
  decide

/-- Claim C4 as amended: terminal-chunk detection is literal byte
matching — `streamCollector.Write` emits a record for a fragment
exactly when the fragment contains `"done":true` or `"done": true` as
a byte substring, regardless of the parsed JSON value of `done`; the
two rendered variants are caught, other formattings are not. -/
theorem C4_detection_is_byte_matching (sc : StreamCollector) (p : List Char) :
    ((scWrite sc p).2 ≠ [] ↔ chunkSignalsDone p = true) ∧
    ((scWrite sc p).2 = [] ↔ chunkSignalsDone p = false) := by
  unfold scWrite
  cases h : chunkSignalsDone p with
  | false => simp [h]
  | true =>
    simp only [h, if_true]
    cases hp : pathIsChat sc.path <;> simp [hp]

/-- Witness for the amended C4: the two rendered variants are each
detected and emit exactly one record; the reformatted variant emits
none. -/
theorem C4_detection_is_byte_matching_witness :
    ((scWrite (newStreamCollector "/api/chat" "m") ("\x7b\"done\":true\x7d").data).2 ≠ []) ∧
    ((scWrite (newStreamCollector "/api/chat" "m") ("\x7b\"done\": true\x7d").data).2 ≠ []) ∧
    ((scWrite (newStreamCollector "/api/chat" "m") ("\x7b\"done\" :true\x7d").data).2 = []) := by
  refine ⟨?_, ?_, ?_⟩
  · exact (C4_detection_is_byte_matching (newStreamCollector "/api/chat" "m")
      (("\x7b\"done\":true\x7d").data)).1.2 (by decide)
  · exact (C4_detection_is_byte_matching (newStreamCollector "/api/chat" "m")
      (("\x7b\"done\": true\x7d").data)).1.2 (by decide)
  · exact (C4_detection_is_byte_matching (newStreamCollector "/api/chat" "m")
      (("\x7b\"done\" :true\x7d").data)).2.2 (by decide)

/-!
## Claim C3 — stream reassembly emits exactly once
-/

/-- Join lines with a trailing newline after each, the accumulation
shape produced by writing newline-terminated chunks. -/
def nlJoin : List (List Char) → List Char
  | [] => []
  | l :: ls => l ++ '\n' :: nlJoin ls

/-- Concatenation of a list of byte fragments. -/
def flattenL : List (List Char) → List Char
  | [] => []
  | l :: ls => l ++ flattenL ls

theorem stringAppendAssoc (a b c : String) : a ++ b ++ c = a ++ (b ++ c) :=
  String.ext (by simp [String.data_append, List.append_assoc])

theorem strConcat_append (a b : List String) :
    strConcat (a ++ b) = strConcat a ++ strConcat b := by
  induction a with
  | nil => simp [strConcat]
  | cons s ss ih => simp [strConcat, ih, stringAppendAssoc]

theorem splitNl_line (l : List Char) : ∀ (rest : List Char), '\n' ∉ l →
    splitNl (l ++ '\n' :: rest) = l :: splitNl rest := by
  induction l with
  | nil =>
    intro rest _
    simp [splitNl]
  | cons c cs ih =>
    intro rest hl
    rw [List.mem_cons] at hl
    push_neg at hl
    have hc : (c == '\n') = false := by
      simp only [beq_eq_false_iff_ne, ne_eq]
      exact fun h => hl.1 h.symm
    simp only [List.cons_append, splitNl, hc, if_false, Bool.false_eq_true]
    have h2 := ih rest hl.2
    rw [show cs ++ '\n' :: rest = cs.append ('\n' :: rest) from rfl] at h2
    rw [h2]

theorem splitNl_nlJoin : ∀ (lines : List (List Char)),
    (∀ l ∈ lines, '\n' ∉ l) → splitNl (nlJoin lines) = lines ++ [[]] := by
  intro lines
  induction lines with
  | nil =>
    intro _
    simp [nlJoin, splitNl]
  | cons l ls ih =>
    intro h
    rw [show nlJoin (l :: ls) = l ++ '\n' :: nlJoin ls from rfl]
    rw [splitNl_line l (nlJoin ls) (h l (by simp))]
    rw [ih (fun x hx => h x (by simp [hx]))]
    rfl

theorem flattenL_map_nl : ∀ (lines : List (List Char)),
    flattenL (lines.map (fun l => l ++ ['\n'])) = nlJoin lines := by
  intro lines
  induction lines with
  | nil => rfl
  | cons l ls ih =>
    simp only [List.map_cons, flattenL, nlJoin, ih]
    simp

theorem getAccumulatedContent_nlJoin (lines : List (List Char))
    (h : ∀ l ∈ lines, '\n' ∉ l) :
    getAccumulatedContent (nlJoin lines) = strConcat (lines.map chunkContent) := by
  unfold getAccumulatedContent
  rw [splitNl_nlJoin lines h, List.map_append, strConcat_append]
  simp [chunkContent, strConcat]

theorem scRun_noSignal : ∀ (ws : List (List Char)) (sc : StreamCollector),
    (∀ w ∈ ws, chunkSignalsDone w = false) →
    scRun sc ws = ({ sc with accumulated := sc.accumulated ++ flattenL ws }, []) := by
  intro ws
  induction ws with
  | nil =>
    intro sc _
    simp [scRun, flattenL]
  | cons w ws2 ih =>
    intro sc h
    have hw : chunkSignalsDone w = false := h w (by simp)
    have hsw : scWrite sc w = ({ sc with accumulated := sc.accumulated ++ w }, []) := by
      unfold scWrite
      rw [hw]
      rfl
    rw [show scRun sc (w :: ws2) =
        ((scRun (scWrite sc w).1 ws2).1,
         (scWrite sc w).2 ++ (scRun (scWrite sc w).1 ws2).2) from rfl]
    rw [hsw]
    dsimp only
    rw [ih { sc with accumulated := sc.accumulated ++ w } (fun x hx => h x (by simp [hx]))]
    simp [flattenL, List.append_assoc]

theorem scRun_append (ws1 : List (List Char)) : ∀ (ws2 : List (List Char)) (sc : StreamCollector),
    scRun sc (ws1 ++ ws2) =
      ((scRun (scRun sc ws1).1 ws2).1,
       (scRun sc ws1).2 ++ (scRun (scRun sc ws1).1 ws2).2) := by
  induction ws1 with
  | nil =>
    intro ws2 sc
    simp [scRun]
  | cons w ws ih =>
    intro ws2 sc
    rw [List.cons_append]
    rw [show scRun sc (w :: (ws ++ ws2)) =
        (let p := scWrite sc w
         let q := scRun p.1 (ws ++ ws2)
         (q.1, p.2 ++ q.2)) from rfl]
    rw [show scRun sc (w :: ws) =
        (let p := scWrite sc w
         let q := scRun p.1 ws
         (q.1, p.2 ++ q.2)) from rfl]
    simp only [ih]
    simp [List.append_assoc]

theorem flattenL_nl_append (fs : List (List Char)) (last2 : List Char) :
    flattenL (fs.map (fun l => l ++ ['\n'])) ++ (last2 ++ ['\n'])
      = nlJoin (fs ++ [last2]) := by
  induction fs with
  | nil => simp [flattenL, nlJoin]
  | cons f fs2 ih =>
    simp only [List.map_cons, flattenL, List.cons_append, nlJoin, List.append_assoc]
    rw [ih]
    simp

/-- Claim C3: a chat-kind stream delivered as newline-terminated
chunks, of which only the final one carries the done marker, makes the
collector emit exactly one reconstructed record — never zero, never
more than one — whose content is the concatenation of the
`message.content` fields of all parsed chunks in arrival order, with
`done = true` and the declared model name. -/
theorem C3_reassembly_emits_once (path modelName : String)
    (fore : List (List Char)) (lastLine : List Char)
    (hpath : pathIsChat path = true)
    (hnl : ∀ l ∈ fore ++ [lastLine], '\n' ∉ l)
    (hquiet : ∀ l ∈ fore, chunkSignalsDone (l ++ ['\n']) = false)
    (hdone : chunkSignalsDone (lastLine ++ ['\n']) = true) :
    (scRun (newStreamCollector path modelName)
        ((fore ++ [lastLine]).map (fun l => l ++ ['\n']))).2 =
      [.chat ⟨strConcat ((fore ++ [lastLine]).map chunkContent), modelName, true⟩] := by
  rw [List.map_append, scRun_append]
  have hquiet2 : ∀ w ∈ fore.map (fun l => l ++ ['\n']), chunkSignalsDone w = false := by
    intro w hw
    rw [List.mem_map] at hw
    obtain ⟨l, hl, rfl⟩ := hw
    exact hquiet l hl
  rw [scRun_noSignal _ _ hquiet2]
  rw [show (List.map (fun l => l ++ ['\n']) [lastLine]) = [lastLine ++ ['\n']] from rfl]
  rw [show ∀ sc, scRun sc [lastLine ++ ['\n']] =
      ((scWrite sc (lastLine ++ ['\n'])).1, (scWrite sc (lastLine ++ ['\n'])).2 ++ [])
    from fun sc => rfl]
  unfold scWrite
  rw [hdone]
  simp only [newStreamCollector, if_true, hpath, List.nil_append, List.append_nil]
  have hacc := flattenL_nl_append fore lastLine
  rw [hacc, getAccumulatedContent_nlJoin (fore ++ [lastLine]) hnl]

/-- The first chunk of the C3 witness stream. -/
def c3Line1 : List Char := ("\x7b\"message\":\x7b\"content\":\"He\"\x7d\x7d").data

/-- The second chunk of the C3 witness stream. -/
def c3Line2 : List Char := ("\x7b\"message\":\x7b\"content\":\"llo\"\x7d\x7d").data

/-- The terminal chunk of the C3 witness stream. -/
def c3Line3 : List Char := ("\x7b\"done\":true\x7d").data

/-- Witness for C3: feeding the spec's example chunks
`{"message":{"content":"He"}}`, `{"message":{"content":"llo"}}`,
`{"done":true}` (newline-terminated) to a chat-path collector yields
exactly one record with content `"Hello"` and `done = true`. -/
theorem C3_reassembly_emits_once_witness :
    (scRun (newStreamCollector "/api/chat" "m")
        ([c3Line1, c3Line2, c3Line3].map (fun l => l ++ ['\n']))).2 =
      [.chat ⟨"Hello", "m", true⟩] := by
  have h := C3_reassembly_emits_once "/api/chat" "m" [c3Line1, c3Line2] c3Line3
    (by decide) (by decide) (by decide) (by decide)
  rw [show ([c3Line1, c3Line2] ++ [c3Line3]) = [c3Line1, c3Line2, c3Line3] from rfl] at h
  rw [h]
  decide

end HoneyPot
